import Mathlib

/-!
Shallow embedding of `src/backtest_app.py` (a streamlit portfolio-backtesting
script).  Trading dates are modelled as natural numbers (ordinal dates),
prices as exact rationals, and nullable cells (pandas `NaN` / `pd.NA`) as
`Option ℚ`.  A price table (`pandas.DataFrame`) is a list of rows, each row a
date paired with one optional price per symbol; a single series
(`pandas.Series`) is a list of date/optional-price pairs.  The Python `**`
operator is kept symbolic as a base/exponent pair of rationals, so every
definition stays executable; two power expressions denote the same real number
whenever base and exponent agree.  Exceptions raised by the script and caught
by its top-level `except Exception` handler are modelled with `Except` and an
explicit error enumeration.
-/

namespace Backtest

/-- A nullable price cell (pandas `NaN`). -/
abbrev Cell := Option ℚ

/-- One row of a price table: one optional price per symbol column. -/
abbrev Row := List Cell

/-- A date-indexed price table (`pandas.DataFrame`), one row per trading date. -/
abbrev Table := List (ℕ × Row)

/-- A date-indexed single price series (`pandas.Series`). -/
abbrev PriceSeries := List (ℕ × Cell)

/-- The memo of `get_first_trade_date` (`@st.cache_data`): symbol ↦ cached result. -/
abbrev Cache := List (String × Option ℕ)

/-- The exception kinds relevant to the script.  `keyError`, `indexError` and
`zeroDivisionError` are the Python exceptions the script can actually raise
(all are caught by the `except Exception` handler at line 197); the remaining
constructors are the error kinds named by the design document
(`InsufficientDataError`, `InvalidRangeError`, `DataQualityError`,
`WeightMismatchError`), present here only as comparison vocabulary — no code
path produces them. -/
inductive RunError
  | keyError
  | indexError
  | zeroDivisionError
  | insufficientData
  | invalidRange
  | dataQuality
  | weightMismatch
  deriving DecidableEq

/-- A Python power expression `base ** exponent`, kept symbolic so the
embedding stays executable over ℚ.  Two such expressions denote the same real
number whenever the two fields agree. -/
structure PowExpr where
  base : ℚ
  exponent : ℚ
  deriving DecidableEq

/-- Result of one interaction with the "Rodar Backtest" button: the handler is
skipped entirely (`notRun`, when the ticker list is empty), aborts with an
exception shown by the generic handler (`errorShown`), or completes with the
portfolio series, normalized benchmark, and the four statistics of lines
159-166 (portfolio total and annualized return, benchmark total and annualized
return). -/
inductive RunOutcome
  | notRun
  | errorShown (e : RunError)
  | completed (pf : List (ℕ × ℚ)) (bn : PriceSeries) (totalRet : ℚ)
      (annualRet : PowExpr) (ibovTotalRet : Cell) (ibovAnnualRet : Option PowExpr)
  deriving DecidableEq

/-- Embeds `get_first_trade_date` (lines 31-41): the surrounding
`try/except` turns any provider failure into `None`, and a missing epoch also
yields `None`.  The provider response is modelled as an already-converted
optional first-trade date wrapped in `Except Unit` (the epoch-to-date
conversion itself is order-preserving bookkeeping and is abstracted away). -/
def getFirstTradeDate (res : Except Unit (Option ℕ)) : Option ℕ :=
  match res with
  | .error _ => none
  | .ok v => v

/-- Lookup in the `st.cache_data` memo (first entry with the given key). -/
def cacheFind : Cache → String → Option (Option ℕ)
  | [], _ => none
  | (k, v) :: rest, s => if k = s then some v else cacheFind rest s

/-- `get_first_trade_date` as actually called through `@st.cache_data`: a
cache hit returns the memoised value, a miss computes the value and appends it
to the memo. -/
def getFirstTradeDateCached (info : String → Except Unit (Option ℕ))
    (c : Cache) (s : String) : Option ℕ × Cache :=
  match cacheFind c s with
  | some v => (v, c)
  | none => (getFirstTradeDate (info s), c ++ [(s, getFirstTradeDate (info s))])

/-- Resolves the first-trade date of every column in order (the `for col in
cleaned.columns` loop of lines 115-116), threading the memo. -/
def resolveFts (info : String → Except Unit (Option ℕ)) :
    List String → Cache → List (Option ℕ) × Cache
  | [], c => ([], c)
  | s :: rest, c =>
    let p := getFirstTradeDateCached info c s
    let q := resolveFts info rest p.2
    (p.1 :: q.1, q.2)

/-- Cleaning of one cell (lines 117-119): first null the cell if its date is
strictly before the column's first-trade date (when one is known), then null
it if the (surviving) price is below the 0.1 floor. -/
def cleanCell (ft : Option ℕ) (d : ℕ) (v : Cell) : Cell :=
  let v1 := match ft with
    | some f => if d < f then none else v
    | none => v
  match v1 with
  | some x => if x < 1 / 10 then none else some x
  | none => none

/-- Cleans a whole table given the per-column first-trade dates (lines
114-120); the table shape is preserved, only cells are nulled. -/
def cleanTableWithFts (fts : List (Option ℕ)) (tbl : Table) : Table :=
  tbl.map fun r => (r.1, List.zipWith (fun ft v => cleanCell ft r.1 v) fts r.2)

/-- The full cleaning step (lines 114-120): resolve each symbol's first-trade
date through `get_first_trade_date` and clean every column.  This cache-free
form is what the loop computes; `resolveFts` threads the memo. -/
def cleanTable (symbols : List String) (info : String → Except Unit (Option ℕ))
    (tbl : Table) : Table :=
  cleanTableWithFts (symbols.map fun s => getFirstTradeDate (info s)) tbl

/-- The date index of a table or series. -/
def dates {α : Type} (t : List (ℕ × α)) : List ℕ :=
  t.map Prod.fst

/-- The portfolio side of the alignment step (lines 133-135):
`pd.concat(..., join="inner")` keeps exactly the dates present in both
indices, `sort_index` orders them (a no-op here because the inputs' indices
are ascending, so their intersection taken in input order is ascending), and
`dropna(how="all")` then drops the rows whose portfolio cells are all null. -/
def alignPortfolio (tbl : Table) (bm : PriceSeries) : Table :=
  (tbl.filter fun r => decide (r.1 ∈ dates bm)).filter fun r => r.2.any Option.isSome

/-- The benchmark side of the alignment step (lines 133-136):
`combined[benchmark_ticker]` keeps the benchmark on the full inner-join index
(it is not subjected to the `dropna`). -/
def alignBenchmark (tbl : Table) (bm : PriceSeries) : PriceSeries :=
  bm.filter fun r => decide (r.1 ∈ dates tbl)

/-- The value at a column's `first_valid_index()` (line 140 combined with the
`col.loc[first_valid]` access of line 141): the first non-null entry. -/
def firstValid : List Cell → Option ℚ
  | [] => none
  | none :: rest => firstValid rest
  | some x :: _ => some x

/-- Embeds `normalize_col` (lines 139-141): divide the whole column by the
value at its first valid index.  When the column has no valid entry,
`first_valid_index()` returns `None` and `col.loc[None]` raises a `KeyError`.
Null cells stay null (`NaN / b` is `NaN`). -/
def normalizeCol (col : List Cell) : Except RunError (List Cell) :=
  match firstValid col with
  | none => .error .keyError
  | some b => .ok (col.map (Option.map fun x => x / b))

/-- Normalizes a list of columns in order, the first failing column aborting
the whole application (the first exception raised inside `DataFrame.apply`
propagates). -/
def normalizeCols : List (List Cell) → Except RunError (List (List Cell))
  | [] => .ok []
  | c :: rest =>
    match normalizeCol c, normalizeCols rest with
    | .error e, _ => .error e
    | .ok _, .error e => .error e
    | .ok c', .ok rest' => .ok (c' :: rest')

/-- Embeds `portfolio_data.apply(normalize_col, axis=0)` (line 143): apply
`normalizeCol` to every column and reassemble the rows.  On an empty frame
pandas never runs the column function (`apply_empty_result` swallows the
probe call's exception), so an empty table normalizes to an empty table. -/
def normalizeTable (tbl : Table) : Except RunError Table :=
  match tbl with
  | [] => .ok []
  | r0 :: _ =>
    let cols := (List.range r0.2.length).map fun j => tbl.map fun r => r.2.getD j none
    match normalizeCols cols with
    | .error e => .error e
    | .ok cols' =>
      .ok ((List.range tbl.length).map fun i =>
        ((dates tbl).getD i 0, cols'.map fun c => c.getD i none))

/-- The equal weights of line 88: `[1 / len(tickers)] * len(tickers)`. -/
def weightsOf (tickers : List String) : List ℚ :=
  List.replicate tickers.length (1 / (tickers.length : ℚ))

/-- Embeds `(normalized_port * weights).sum(axis=1)` (line 144): each row is
multiplied cell-wise by the weight of its column and summed, `sum` skipping
nulls (pandas `skipna=True`), so a null cell contributes 0. -/
def aggregate (tbl : Table) (w : List ℚ) : List (ℕ × ℚ) :=
  tbl.map fun r =>
    (r.1, (List.zipWith (fun v wt => match v with
      | some x => wt * x
      | none => 0) r.2 w).sum)

/-- The value a null-skipping sum assigns to a cell: its price, or 0 when
null.  Used to state the weighted-sum specification. -/
def cellValue (v : Cell) : ℚ :=
  v.getD 0

/-- Embeds `benchmark_data / benchmark_data.iloc[0]` (line 145): `iloc[0]` on
an empty series raises an `IndexError`; otherwise the whole series is divided
by the first entry, nulls propagating through the division. -/
def benchNormE (bm : PriceSeries) : Except RunError PriceSeries :=
  match bm with
  | [] => .error .indexError
  | (_, v0) :: _ =>
    .ok (bm.map fun p => (p.1, p.2.bind fun x => v0.map fun b => x / b))

/-- Embeds `portfolio[-1] / portfolio[0] - 1` (line 159), positional indexing
on the portfolio series' values; `[-1]` and `[0]` on an empty series raise an
`IndexError`. -/
def totalReturn (s : List ℚ) : Except RunError ℚ :=
  match s with
  | [] => .error .indexError
  | x :: xs => .ok ((x :: xs).getLastD 0 / x - 1)

/-- Embeds `(portfolio[-1] / portfolio[0]) ** (1 / (days / 365)) - 1` (line
160) as a symbolic power (the trailing `- 1` is implicit in the reading of a
`PowExpr` as `base ^ exponent - 1`).  Python evaluates the base first
(`IndexError` on an empty series), then the exponent, where `days = 0` makes
`1 / 0.0` raise a `ZeroDivisionError`. -/
def annualizedParts (s : List ℚ) (d : ℤ) : Except RunError PowExpr :=
  match s with
  | [] => .error .indexError
  | x :: xs =>
    if d = 0 then .error .zeroDivisionError
    else .ok ⟨(x :: xs).getLastD 0 / x, 1 / ((d : ℚ) / 365)⟩

/-- Value of a series at a given date (used for `.loc[...]` row selection);
dates actually selected always exist in the series, a missing date reads as
null. -/
def lookupDate (s : PriceSeries) (d : ℕ) : Cell :=
  match s.find? fun p => p.1 = d with
  | some p => p.2
  | none => none

/-- Embeds `series.loc[index]` row selection: the series restricted to the
given date list, in the order of that list. -/
def restrict (s : PriceSeries) (ds : List ℕ) : PriceSeries :=
  ds.map fun d => (d, lookupDate s d)

/-- Embeds `benchmark_norm.loc[portfolio.index][-1] - 1` (line 165): the
normalized benchmark restricted to the portfolio's date index, its last value
minus one; `[-1]` on an empty selection raises an `IndexError`, and a null
last value stays null. -/
def ibovTotal (bn : PriceSeries) (pfDates : List ℕ) : Except RunError Cell :=
  match (restrict bn pfDates).getLast? with
  | none => .error .indexError
  | some p => .ok (p.2.map fun x => x - 1)

/-- Embeds `benchmark_norm.loc[portfolio.index][-1] ** (1 / (days / 365)) - 1`
(line 166) as a symbolic power: base first (`IndexError` on an empty
selection), then the exponent (`ZeroDivisionError` when `days = 0`); a null
base stays null. -/
def ibovAnnualParts (bn : PriceSeries) (pfDates : List ℕ) (d : ℤ) :
    Except RunError (Option PowExpr) :=
  match (restrict bn pfDates).getLast? with
  | none => .error .indexError
  | some p =>
    if d = 0 then .error .zeroDivisionError
    else .ok (p.2.map fun x => ⟨x, 1 / ((d : ℚ) / 365)⟩)

/-- Modelled from the spec (section 8, for comparison only): the formula
`series[last] / series[first] - 1` read off a date-indexed series, `none` when
the series is empty or an endpoint is null.  This is the claimed shape of the
benchmark total-return statistic; the code's actual computation is
`ibovTotal`. -/
def specSeriesTotal (s : PriceSeries) : Option ℚ :=
  match s.head?, s.getLast? with
  | some (_, some f), some (_, some l) => some (l / f - 1)
  | _, _ => none

/-- The body of the "Rodar Backtest" handler after the first-trade dates have
been resolved (lines 99-168, chart and table rendering omitted): clean, align,
normalize column-wise, aggregate with equal weights, normalize the benchmark,
and compute the four statistics; the first exception aborts the run and is
shown by the `except Exception` handler. -/
def pipelineCore (tickers : List String) (fts : List (Option ℕ)) (fp : Table)
    (fb : PriceSeries) (d : ℤ) : RunOutcome :=
  let cleaned := cleanTableWithFts fts fp
  let pfA := alignPortfolio cleaned fb
  let bmA := alignBenchmark cleaned fb
  match normalizeTable pfA with
  | .error e => .errorShown e
  | .ok np =>
    let pf := aggregate np (weightsOf tickers)
    match benchNormE bmA with
    | .error e => .errorShown e
    | .ok bn =>
      match totalReturn (pf.map Prod.snd) with
      | .error e => .errorShown e
      | .ok tr =>
        match annualizedParts (pf.map Prod.snd) d with
        | .error e => .errorShown e
        | .ok ap =>
          match ibovTotal bn (pf.map Prod.fst) with
          | .error e => .errorShown e
          | .ok it =>
            match ibovAnnualParts bn (pf.map Prod.fst) d with
            | .error e => .errorShown e
            | .ok iap => .completed pf bn tr ap it iap

/-- The "Rodar Backtest" interaction (line 96): the handler body only runs
when the ticker list is non-empty (`if st.button(...) and tickers:`); with an
empty list nothing is fetched or computed and only a warning is displayed.
The fetched portfolio table and benchmark series are passed in as data (the
fetch itself is the external provider), and the `st.cache_data` memo is
threaded through. -/
def runBacktest (tickers : List String) (fp : Table) (fb : PriceSeries)
    (info : String → Except Unit (Option ℕ)) (d : ℤ) (c : Cache) :
    RunOutcome × Cache :=
  if tickers.isEmpty then (.notRun, c)
  else
    let r := resolveFts info tickers c
    (pipelineCore tickers r.1 fp fb d, r.2)

/-- The canonical form the add-ticker handler (lines 60-63) gives its input:
strip and uppercase, reject the empty string, and append the ".SA" suffix when
the symbol contains no "." and does not start with "^". -/
def canonicalTicker (input : String) : Option String :=
  let raw := input.trim.toUpper
  if raw = "" then none
  else some (if ¬ raw.contains '.' ∧ ¬ raw.startsWith ("^") then raw ++ (".SA") else raw)

/-- The "Adicionar" button handler (lines 59-66): canonicalise the input and
append it only when it is not already present. -/
def addTicker (l : List String) (input : String) : List String :=
  match canonicalTicker input with
  | none => l
  | some c => if c ∈ l then l else l ++ [c]

/-- The badge-removal handler (line 77): `st.session_state.tickers.remove(tic)`
deletes the first occurrence of the clicked ticker. -/
def removeTicker (l : List String) (t : String) : List String :=
  l.erase t

/-- A concrete listing-date provider used for instantiations: symbol "A" has
first-trade date 5, every other lookup fails. -/
def exInfoAB : String → Except Unit (Option ℕ) :=
  fun s => if s = "A" then .ok (some 5) else .error ()

/-- The `st.cache_data` memo is consistent with the provider: every cached
entry holds exactly what `get_first_trade_date` would compute. -/
abbrev Consistent (info : String → Except Unit (Option ℕ)) (c : Cache) : Prop :=
  ∀ p ∈ c, p.2 = getFirstTradeDate (info p.1)

/-! ### Helper lemmas -/

/-- The position witnessing `firstValid`: the first valid value sits at an
index before which every cell is null. -/
theorem firstValid_spec (col : List Cell) (b : ℚ) (h : firstValid col = some b) :
    ∃ j : ℕ, col[j]? = some (some b) ∧ ∀ i < j, col[i]? = some none := by
  induction col with
  | nil => simp [firstValid] at h
  | cons v rest ih =>
    match v with
    | none =>
      obtain ⟨j, hj, hlt⟩ := ih h
      refine ⟨j + 1, by simpa using hj, fun i hi => ?_⟩
      cases i with
      | zero => simp
      | succ i' => simpa using hlt i' (by omega)
    | some x =>
      have hx : x = b := by simpa [firstValid] using h
      exact ⟨0, by simp [hx], fun i hi => by omega⟩

/-- Membership in the aligned portfolio index: exactly the dates carried by a
table row, shared with the benchmark index, whose row is not entirely null. -/
theorem mem_alignPortfolio (tbl : Table) (bm : PriceSeries) (d : ℕ) :
    d ∈ dates (alignPortfolio tbl bm) ↔
      ∃ r : Row, (d, r) ∈ tbl ∧ d ∈ dates bm ∧ r.any Option.isSome = true := by
  constructor
  · intro hd
    obtain ⟨a, ha, hfst⟩ := List.mem_map.1 hd
    obtain ⟨ha1, hany⟩ := List.mem_filter.1 ha
    obtain ⟨ha2, hdec⟩ := List.mem_filter.1 ha1
    have haeq : (d, a.2) = a := by rw [← hfst]
    refine ⟨a.2, haeq ▸ ha2, of_decide_eq_true ?_, hany⟩
    rwa [hfst] at hdec
  · rintro ⟨r, h1, h2, h3⟩
    exact List.mem_map.2 ⟨(d, r),
      List.mem_filter.2 ⟨List.mem_filter.2 ⟨h1, decide_eq_true h2⟩, h3⟩, rfl⟩

/-- Membership in the aligned benchmark index: exactly the intersection of the
two date indices. -/
theorem mem_alignBenchmark (tbl : Table) (bm : PriceSeries) (d : ℕ) :
    d ∈ dates (alignBenchmark tbl bm) ↔ d ∈ dates bm ∧ d ∈ dates tbl := by
  constructor
  · intro hd
    obtain ⟨a, ha, hfst⟩ := List.mem_map.1 hd
    obtain ⟨ha1, hdec⟩ := List.mem_filter.1 ha
    subst hfst
    exact ⟨List.mem_map_of_mem Prod.fst ha1, of_decide_eq_true hdec⟩
  · rintro ⟨hbm, htbl⟩
    obtain ⟨a, ha, hfst⟩ := List.mem_map.1 hbm
    refine List.mem_map.2 ⟨a, List.mem_filter.2 ⟨ha, decide_eq_true ?_⟩, hfst⟩
    rw [hfst]
    exact htbl

/-- A null-skipping weighted row sum, written as the spec's sum over symbol
positions. -/
theorem zipWith_weighted_sum (w : List ℚ) (r : Row) :
    (List.zipWith (fun v wt => match v with
      | some x => wt * x
      | none => 0) r w).sum
      = ∑ j ∈ Finset.range w.length, w.getD j 0 * cellValue (r.getD j none) := by
  induction w generalizing r with
  | nil => simp
  | cons wt w' ih =>
    cases r with
    | nil => simp [cellValue]
    | cons v r' =>
      simp only [List.length_cons]
      rw [Finset.sum_range_succ']
      simp only [List.getD_cons_succ, List.getD_cons_zero, List.zipWith_cons_cons,
        List.sum_cons, ih r']
      cases v with
      | none =>
        simp [cellValue]
      | some x =>
        simp [cellValue]
        ring

/-! ### Claims -/

/-- Claim C1: for every price column, `normalize_col` divides every value by
the column's own base value (the price at its first non-null position), the
output at the base position is exactly 1, and positions before the first
valid observation remain null.  The base is non-zero for every column that
passed the cleaning step, since cleaning nulls all prices below 1/10. -/
theorem normalize_base_one (col : List Cell) (b : ℚ)
    (hb : b ≠ 0) (hfv : firstValid col = some b) :
    ∃ (out : List Cell) (j : ℕ), normalizeCol col = .ok out
      ∧ out.length = col.length
      ∧ col[j]? = some (some b)
      ∧ (∀ i < j, col[i]? = some none ∧ out[i]? = some none)
      ∧ out[j]? = some (some 1)
      ∧ (∀ i : ℕ, out[i]? = (col[i]?).map (Option.map fun x => x / b)) := by
  obtain ⟨j, hj, hlt⟩ := firstValid_spec col b hfv
  refine ⟨col.map (Option.map fun x => x / b), j, by simp [normalizeCol, hfv],
    by simp, hj, fun i hi => ⟨hlt i hi, ?_⟩, ?_, fun i => ?_⟩
  · rw [List.getElem?_map, hlt i hi]
    rfl
  · rw [List.getElem?_map, hj]
    simp [div_self hb]
  · rw [List.getElem?_map]

/-- Witness for C1 on the concrete column `[null, 2, 4]`. -/
theorem normalize_base_one_witness :
    ((2 : ℚ) ≠ 0) ∧ firstValid [none, some 2, some 4] = some 2 ∧
      (∃ (out : List Cell) (j : ℕ), normalizeCol [none, some 2, some 4] = .ok out
        ∧ out.length = ([none, some 2, some 4] : List Cell).length
        ∧ ([none, some 2, some 4] : List Cell)[j]? = some (some 2)
        ∧ (∀ i < j, ([none, some 2, some 4] : List Cell)[i]? = some none ∧ out[i]? = some none)
        ∧ out[j]? = some (some 1)
        ∧ (∀ i : ℕ, out[i]? = (([none, some 2, some 4] : List Cell)[i]?).map
            (Option.map fun x => x / 2))) :=
  ⟨by decide, by decide, normalize_base_one [none, some 2, some 4] 2 (by decide) (by decide)⟩

/-- Claim C10: the ticker list stays duplicate-free.  The add handler
canonicalises its input (strip, uppercase, ".SA" suffix when the symbol has no
"." and no leading "^"), inserts only that canonical form and only when
absent, and the badge handler removes one existing entry; both operations
preserve `Nodup`. -/
theorem tickerList_nodup (l : List String) (input t : String) (h : l.Nodup) :
    (addTicker l input).Nodup
    ∧ (removeTicker l t).Nodup
    ∧ (∀ s, s ∈ addTicker l input → s ∈ l ∨ canonicalTicker input = some s)
    ∧ (∀ c, canonicalTicker input = some c → c ∈ l → addTicker l input = l)
    ∧ (t ∈ l → (removeTicker l t).length + 1 = l.length)
    ∧ (t ∉ l → removeTicker l t = l)
    ∧ (input.trim.toUpper ≠ "" → ¬ input.trim.toUpper.contains '.' →
        ¬ input.trim.toUpper.startsWith ("^") →
        canonicalTicker input = some (input.trim.toUpper ++ (".SA"))) := by
  refine ⟨?_, h.erase t, ?_, ?_, fun ht => List.length_erase_add_one ht,
    fun ht => List.erase_of_not_mem ht, ?_⟩
  · rcases hcan : canonicalTicker input with _ | c
    · simpa only [addTicker, hcan] using h
    · simp only [addTicker, hcan]
      by_cases hc : c ∈ l
      · rw [if_pos hc]; exact h
      · rw [if_neg hc, ← List.concat_eq_append]
        exact h.concat hc
  · intro s hs
    rcases hcan : canonicalTicker input with _ | c
    · simp only [addTicker, hcan] at hs
      exact Or.inl hs
    · simp only [addTicker, hcan] at hs
      by_cases hc : c ∈ l
      · rw [if_pos hc] at hs
        exact Or.inl hs
      · rw [if_neg hc] at hs
        rcases List.mem_append.1 hs with h1 | h1
        · exact Or.inl h1
        · simp only [List.mem_singleton] at h1
          subst h1
          exact Or.inr rfl
  · intro c hcan hc
    simp only [addTicker, hcan]
    rw [if_pos hc]
  · intro hne hdot hhat
    simp only [canonicalTicker]
    rw [if_neg hne, if_pos ⟨hdot, hhat⟩]

/-- Witness for C10 on the list `["VALE3.SA"]`, adding `" petr4 "` and
removing `"VALE3.SA"`. -/
theorem tickerList_nodup_witness :
    (["VALE3.SA"] : List String).Nodup ∧
      ((addTicker ["VALE3.SA"] (" petr4 ")).Nodup
      ∧ (removeTicker ["VALE3.SA"] ("VALE3.SA")).Nodup
      ∧ (∀ s, s ∈ addTicker ["VALE3.SA"] (" petr4 ") →
          s ∈ ["VALE3.SA"] ∨ canonicalTicker (" petr4 ") = some s)
      ∧ (∀ c, canonicalTicker (" petr4 ") = some c → c ∈ ["VALE3.SA"] →
          addTicker ["VALE3.SA"] (" petr4 ") = ["VALE3.SA"])
      ∧ (("VALE3.SA" : String) ∈ ["VALE3.SA"] →
          (removeTicker ["VALE3.SA"] ("VALE3.SA")).length + 1 = (["VALE3.SA"] : List String).length)
      ∧ (("VALE3.SA" : String) ∉ ["VALE3.SA"] →
          removeTicker ["VALE3.SA"] ("VALE3.SA") = ["VALE3.SA"])
      ∧ ((" petr4 " : String).trim.toUpper ≠ "" →
          ¬ (" petr4 " : String).trim.toUpper.contains '.' →
          ¬ (" petr4 " : String).trim.toUpper.startsWith ("^") →
          canonicalTicker (" petr4 ") = some ((" petr4 " : String).trim.toUpper ++ (".SA")))) :=
  ⟨by decide, tickerList_nodup ["VALE3.SA"] (" petr4 ") ("VALE3.SA") (by decide)⟩

/-- Claim C2: the aligned date index is a strictly ascending subset of both
inputs' indices and is exactly their intersection — for the portfolio table
up to dropping the rows on which every symbol is null, and for the benchmark
series exactly the intersection. -/
theorem align_index_exact (tbl : Table) (bm : PriceSeries)
    (hp : (dates tbl).Pairwise (· < ·)) (hb : (dates bm).Pairwise (· < ·)) :
    (dates (alignPortfolio tbl bm)).Pairwise (· < ·)
    ∧ (∀ d, d ∈ dates (alignPortfolio tbl bm) → d ∈ dates tbl ∧ d ∈ dates bm)
    ∧ (∀ (d : ℕ) (r : Row), (d, r) ∈ tbl → d ∈ dates bm → r.any Option.isSome = true →
        d ∈ dates (alignPortfolio tbl bm))
    ∧ (dates (alignBenchmark tbl bm)).Pairwise (· < ·)
    ∧ (∀ d, d ∈ dates (alignBenchmark tbl bm) ↔ d ∈ dates bm ∧ d ∈ dates tbl) := by
  have hsubP : List.Sublist (dates (alignPortfolio tbl bm)) (dates tbl) :=
    ((List.filter_sublist _).trans (List.filter_sublist _)).map Prod.fst
  have hsubB : List.Sublist (dates (alignBenchmark tbl bm)) (dates bm) :=
    (List.filter_sublist _).map Prod.fst
  refine ⟨hp.sublist hsubP, fun d hd => ?_, fun d r h1 h2 h3 => ?_, hb.sublist hsubB,
    fun d => mem_alignBenchmark tbl bm d⟩
  · obtain ⟨r, h1, h2, _⟩ := (mem_alignPortfolio tbl bm d).1 hd
    exact ⟨List.mem_map_of_mem Prod.fst h1, h2⟩
  · exact (mem_alignPortfolio tbl bm d).2 ⟨r, h1, h2, h3⟩

/-- Witness for C2 on a three-row table and a benchmark sharing dates 1 and 2,
with date 1 an all-null portfolio row. -/
theorem align_index_exact_witness :
    (dates [(0, [some 1]), (1, [none]), (2, [some 3])]).Pairwise (· < ·) ∧
    (dates [(1, some 5), (2, some 6), (3, some 7)]).Pairwise (· < ·) ∧
    ((dates (alignPortfolio [(0, [some 1]), (1, [none]), (2, [some 3])]
        [(1, some 5), (2, some 6), (3, some 7)])).Pairwise (· < ·)
    ∧ (∀ d, d ∈ dates (alignPortfolio [(0, [some 1]), (1, [none]), (2, [some 3])]
        [(1, some 5), (2, some 6), (3, some 7)]) →
        d ∈ dates [(0, [some 1]), (1, [none]), (2, [some 3])]
          ∧ d ∈ dates [(1, some 5), (2, some 6), (3, some 7)])
    ∧ (∀ (d : ℕ) (r : Row), (d, r) ∈ [(0, [some 1]), (1, [none]), (2, [some 3])] →
        d ∈ dates [(1, some 5), (2, some 6), (3, some 7)] → r.any Option.isSome = true →
        d ∈ dates (alignPortfolio [(0, [some 1]), (1, [none]), (2, [some 3])]
          [(1, some 5), (2, some 6), (3, some 7)]))
    ∧ (dates (alignBenchmark [(0, [some 1]), (1, [none]), (2, [some 3])]
        [(1, some 5), (2, some 6), (3, some 7)])).Pairwise (· < ·)
    ∧ (∀ d, d ∈ dates (alignBenchmark [(0, [some 1]), (1, [none]), (2, [some 3])]
        [(1, some 5), (2, some 6), (3, some 7)]) ↔
        d ∈ dates [(1, some 5), (2, some 6), (3, some 7)]
          ∧ d ∈ dates [(0, [some 1]), (1, [none]), (2, [some 3])])) :=
  ⟨by decide, by decide,
    align_index_exact [(0, [some 1]), (1, [none]), (2, [some 3])]
      [(1, some 5), (2, some 6), (3, some 7)] (by decide) (by decide)⟩

/-- Claim C3: the aggregated portfolio value at each date is the weighted,
null-skipping sum of the row's normalized values; the output keeps the aligned
table's length, and a single-symbol portfolio with weight 1 reproduces the
normalized column exactly. -/
theorem aggregate_weighted_sum (tbl : Table) (w : List ℚ) :
    (aggregate tbl w).length = tbl.length
    ∧ (∀ (i : ℕ) (d : ℕ) (r : Row), tbl[i]? = some (d, r) →
        (aggregate tbl w)[i]? = some (d, ∑ j ∈ Finset.range w.length,
          w.getD j 0 * cellValue (r.getD j none)))
    ∧ ((∀ p ∈ tbl, p.2.length = 1 ∧ (p.2.getD 0 none).isSome = true) →
        (aggregate tbl [1]).map (fun q => (q.1, some q.2))
          = tbl.map fun p => (p.1, p.2.getD 0 none)) := by
  refine ⟨by simp [aggregate], fun i d r hi => ?_, fun hsingle => ?_⟩
  · unfold aggregate
    rw [List.getElem?_map, hi]
    simp [zipWith_weighted_sum]
  · revert hsingle
    induction tbl with
    | nil => intro _; rfl
    | cons p rest ih =>
      intro hsingle
      obtain ⟨d, row⟩ := p
      obtain ⟨hlen, hsome⟩ := hsingle (d, row) (by simp)
      cases row with
      | nil => simp at hlen
      | cons c row' =>
        cases row' with
        | cons c2 row'' => simp at hlen
        | nil =>
          cases c with
          | none => simp at hsome
          | some x =>
            have ihr := ih fun q hq => hsingle q (List.mem_cons_of_mem _ hq)
            simp only [aggregate, List.map_cons] at ihr ⊢
            rw [ihr]
            simp

/-- Witness for C3 on a two-row single-column table with weight 1. -/
theorem aggregate_weighted_sum_witness :
    ((aggregate [(0, [some 1]), (1, [some (3/2)])] [1]).length
        = ([(0, [some 1]), (1, [some (3/2)])] : Table).length
    ∧ (∀ (i : ℕ) (d : ℕ) (r : Row), ([(0, [some 1]), (1, [some (3/2)])] : Table)[i]? = some (d, r) →
        (aggregate [(0, [some 1]), (1, [some (3/2)])] [1])[i]? = some (d, ∑ j ∈ Finset.range ([1] : List ℚ).length,
          ([1] : List ℚ).getD j 0 * cellValue (r.getD j none)))
    ∧ ((∀ p ∈ ([(0, [some 1]), (1, [some (3/2)])] : Table), p.2.length = 1 ∧ (p.2.getD 0 none).isSome = true) →
        (aggregate [(0, [some 1]), (1, [some (3/2)])] [1]).map (fun q => (q.1, some q.2))
          = ([(0, [some 1]), (1, [some (3/2)])] : Table).map fun p => (p.1, p.2.getD 0 none))) :=
  aggregate_weighted_sum [(0, [some 1]), (1, [some (3/2)])] [1]

/-- Claim C5: cleaning nulls, per column independently, exactly the cells
dated strictly before the column's first-trade date (when the lookup yields
one) or priced below the 0.1 floor; the table shape is unchanged, and a
lookup failure degrades that column to price-only filtering instead of
aborting the batch (the cleaning step is total). -/
theorem cleanTable_spec (symbols : List String) (info : String → Except Unit (Option ℕ))
    (tbl : Table) (hrect : ∀ r ∈ tbl, r.2.length = symbols.length) :
    ((cleanTable symbols info tbl).map Prod.fst = tbl.map Prod.fst)
    ∧ (∀ r ∈ cleanTable symbols info tbl, r.2.length = symbols.length)
    ∧ (∀ (i : ℕ) (d : ℕ) (r : Row), tbl[i]? = some (d, r) →
        (cleanTable symbols info tbl)[i]? = some (d, List.zipWith (fun ft v => cleanCell ft d v)
          (symbols.map fun s => getFirstTradeDate (info s)) r))
    ∧ (∀ (ft : Option ℕ) (d : ℕ) (v : Cell),
        (cleanCell ft d v = none ↔ v = none ∨ (∃ f, ft = some f ∧ d < f)
          ∨ (∃ x : ℚ, v = some x ∧ x < 1 / 10))
        ∧ (cleanCell ft d v = none ∨ cleanCell ft d v = v))
    ∧ (∀ (s : String) (d : ℕ) (v : Cell) (u : Unit), info s = .error u →
        cleanCell (getFirstTradeDate (info s)) d v = cleanCell none d v) := by
  refine ⟨?_, fun r hr => ?_, fun i d r hi => ?_, fun ft d v => ⟨?_, ?_⟩, fun s d v u hu => ?_⟩
  · simp [cleanTable, cleanTableWithFts, List.map_map, Function.comp]
  · simp only [cleanTable, cleanTableWithFts, List.mem_map] at hr
    obtain ⟨⟨d0, row0⟩, hmem, heq⟩ := hr
    subst heq
    simp [List.length_zipWith, hrect (d0, row0) hmem]
  · simp only [cleanTable, cleanTableWithFts]
    rw [List.getElem?_map, hi]
    rfl
  · cases ft with
    | none =>
      cases v with
      | none => simp [cleanCell]
      | some x =>
        by_cases hx : x < 1 / 10 <;> simp [cleanCell, hx]
    | some f =>
      by_cases hdf : d < f
      · cases v with
        | none => simp [cleanCell, hdf]
        | some x => simp [cleanCell, hdf]
      · cases v with
        | none => simp [cleanCell, hdf]
        | some x =>
          by_cases hx : x < 1 / 10 <;> simp [cleanCell, hdf, hx]
  · cases ft with
    | none =>
      cases v with
      | none => simp [cleanCell]
      | some x => by_cases hx : x < 1 / 10 <;> simp [cleanCell, hx] <;> exact lt_or_le x _
    | some f =>
      by_cases hdf : d < f <;> cases v with
      | none => simp [cleanCell, hdf]
      | some x =>
        by_cases hx : x < 1 / 10 <;> simp [cleanCell, hdf, hx] <;> exact lt_or_le x _
  · rw [hu]
    rfl

/-- Witness for C5: two symbols, the first with a known first-trade date of 5,
the second with a failing lookup, over a one-row table at date 3 whose second
price is below the floor. -/
theorem cleanTable_spec_witness :
    (∀ r ∈ ([(3, [some 2, some (1/20)])] : Table), r.2.length = (["A", "B"] : List String).length) ∧
    ((cleanTable ["A", "B"] exInfoAB [(3, [some 2, some (1/20)])]).map Prod.fst
        = ([(3, [some 2, some (1/20)])] : Table).map Prod.fst
    ∧ (∀ r ∈ cleanTable ["A", "B"] exInfoAB [(3, [some 2, some (1/20)])],
        r.2.length = (["A", "B"] : List String).length)
    ∧ (∀ (i : ℕ) (d : ℕ) (r : Row), ([(3, [some 2, some (1/20)])] : Table)[i]? = some (d, r) →
        (cleanTable ["A", "B"] exInfoAB [(3, [some 2, some (1/20)])])[i]?
          = some (d, List.zipWith (fun ft v => cleanCell ft d v)
            ((["A", "B"] : List String).map fun s => getFirstTradeDate (exInfoAB s)) r))
    ∧ (∀ (ft : Option ℕ) (d : ℕ) (v : Cell),
        (cleanCell ft d v = none ↔ v = none ∨ (∃ f, ft = some f ∧ d < f)
          ∨ (∃ x : ℚ, v = some x ∧ x < 1 / 10))
        ∧ (cleanCell ft d v = none ∨ cleanCell ft d v = v))
    ∧ (∀ (s : String) (d : ℕ) (v : Cell) (u : Unit), exInfoAB s = .error u →
        cleanCell (getFirstTradeDate (exInfoAB s)) d v = cleanCell none d v)) :=
  ⟨by decide, cleanTable_spec ["A", "B"] exInfoAB [(3, [some 2, some (1/20)])] (by decide)⟩

/-- Cleaning preserves the date index. -/
theorem dates_cleanTableWithFts (fts : List (Option ℕ)) (tbl : Table) :
    dates (cleanTableWithFts fts tbl) = dates tbl := by
  simp [dates, cleanTableWithFts, List.map_map, Function.comp]

/-- Both alignment outputs are empty when the two date indices share no
date. -/
theorem align_disjoint_nil (tbl : Table) (bm : PriceSeries)
    (hdisj : ∀ d ∈ dates tbl, d ∉ dates bm) :
    alignPortfolio tbl bm = [] ∧ alignBenchmark tbl bm = [] := by
  constructor
  · have h1 : tbl.filter (fun r => decide (r.1 ∈ dates bm)) = [] :=
      List.filter_eq_nil_iff.2 fun a ha => by
        simpa using hdisj a.1 (List.mem_map_of_mem Prod.fst ha)
    simp [alignPortfolio, h1]
  · exact List.filter_eq_nil_iff.2 fun p hp => by
      simp only [decide_eq_true_eq]
      intro hmem
      exact hdisj p.1 hmem (List.mem_map_of_mem Prod.fst hp)

/-- Claim C4 (amended): the portfolio statistics follow the claimed formulas —
totalReturn is series[last]/series[first] − 1 and the annualized statistic has
base series[last]/series[first] and exponent 365/elapsedDays with the elapsed
days taken from the requested range — while the benchmark statistics are read
off the benchmark series normalized at the first intersection date and
evaluated at the last portfolio date; the claimed last/first − 1 shape holds
for the benchmark exactly when the restricted benchmark series starts at
normalized value 1, i.e. when the first intersection date survives the
all-null drop. -/
theorem stats_formulas_amended (x : ℚ) (xs : List ℚ) (d : ℤ) (bn : PriceSeries)
    (pfD : List ℕ) (d0 : ℕ) (hd : d ≠ 0)
    (hfirst : (restrict bn pfD).head? = some (d0, some 1)) :
    totalReturn (x :: xs) = .ok ((x :: xs).getLastD 0 / x - 1)
    ∧ annualizedParts (x :: xs) d = .ok ⟨(x :: xs).getLastD 0 / x, 365 / (d : ℚ)⟩
    ∧ ibovTotal bn pfD = .ok (specSeriesTotal (restrict bn pfD))
    ∧ (∀ (dl : ℕ) (l : ℚ), (restrict bn pfD).getLast? = some (dl, some l) →
        ibovAnnualParts bn pfD d = .ok (some ⟨l, 365 / (d : ℚ)⟩)) := by
  refine ⟨rfl, ?_, ?_, fun dl l hl => ?_⟩
  · simp only [annualizedParts, if_neg hd]
    rw [one_div_div]
  · cases hlast : (restrict bn pfD).getLast? with
    | none =>
      rw [List.getLast?_eq_none_iff] at hlast
      rw [hlast] at hfirst
      cases hfirst
    | some p =>
      obtain ⟨dl, vl⟩ := p
      unfold ibovTotal specSeriesTotal
      rw [hlast, hfirst]
      cases vl with
      | none => rfl
      | some l => simp
  · unfold ibovAnnualParts
    rw [hl]
    show (if d = 0 then (Except.error RunError.zeroDivisionError : Except RunError (Option PowExpr))
        else .ok ((some l).map fun x => ⟨x, 1 / ((d : ℚ) / 365)⟩)) = _
    rw [if_neg hd, one_div_div]
    rfl

/-- Witness for the amended C4 on the series `[1, 2]` over 730 requested days
and a benchmark sharing its whole index with the portfolio. -/
theorem stats_formulas_amended_witness :
    ((730 : ℤ) ≠ 0) ∧
    (restrict [(0, some 1), (1, some (11/10))] [0, 1]).head? = some (0, some 1) ∧
    (totalReturn [1, 2] = .ok (([1, 2] : List ℚ).getLastD 0 / 1 - 1)
    ∧ annualizedParts [1, 2] 730 = .ok ⟨([1, 2] : List ℚ).getLastD 0 / 1, 365 / ((730 : ℤ) : ℚ)⟩
    ∧ ibovTotal [(0, some 1), (1, some (11/10))] [0, 1]
        = .ok (specSeriesTotal (restrict [(0, some 1), (1, some (11/10))] [0, 1]))
    ∧ (∀ (dl : ℕ) (l : ℚ),
        (restrict [(0, some 1), (1, some (11/10))] [0, 1]).getLast? = some (dl, some l) →
        ibovAnnualParts [(0, some 1), (1, some (11/10))] [0, 1] 730
          = .ok (some ⟨l, 365 / ((730 : ℤ) : ℚ)⟩))) :=
  ⟨by decide, by decide,
    stats_formulas_amended 1 [2] 730 [(0, some 1), (1, some (11/10))] [0, 1] 0
      (by decide) (by decide)⟩

/-- Counterexample for C4 as stated: with one symbol whose cleaned prices are
null, 2, null on dates 0, 1, 2 and a benchmark of 100, 110, 120 on the same
dates, the run completes and reports a benchmark total return of 1/10, while
the claimed formula series[last]/series[first] − 1 yields 0 on the benchmark
restricted to the portfolio index and 1/5 on the full aligned benchmark — the
code's value matches neither. -/
theorem stats_benchmark_cex :
    ibovTotal [(0, some 1), (1, some (11/10)), (2, some (6/5))] [1] = .ok (some (1/10))
    ∧ specSeriesTotal (restrict [(0, some 1), (1, some (11/10)), (2, some (6/5))] [1]) = some 0
    ∧ specSeriesTotal [(0, some 1), (1, some (11/10)), (2, some (6/5))] = some (1/5)
    ∧ ¬ ibovTotal [(0, some 1), (1, some (11/10)), (2, some (6/5))] [1]
        = .ok (specSeriesTotal (restrict [(0, some 1), (1, some (11/10)), (2, some (6/5))] [1]))
    ∧ ¬ ibovTotal [(0, some 1), (1, some (11/10)), (2, some (6/5))] [1]
        = .ok (specSeriesTotal [(0, some 1), (1, some (11/10)), (2, some (6/5))])
    ∧ pipelineCore ["A"] [none] [(0, [none]), (1, [some 2]), (2, [none])]
        [(0, some 100), (1, some 110), (2, some 120)] 730
      = .completed [(1, 1)] [(0, some 1), (1, some (11/10)), (2, some (6/5))] 0
          ⟨1, 1/2⟩ (some (1/10)) (some ⟨11/10, 1/2⟩) := by
  refine ⟨?_, ?_, ?_, ?_, ?_, ?_⟩
  · norm_num [ibovTotal, restrict, lookupDate, List.find?]
  · norm_num [specSeriesTotal, restrict, lookupDate, List.find?]
  · norm_num [specSeriesTotal]
  · norm_num [ibovTotal, specSeriesTotal, restrict, lookupDate, List.find?]
  · norm_num [ibovTotal, specSeriesTotal, restrict, lookupDate, List.find?]
  · have hclean : cleanTableWithFts [none] [(0, [none]), (1, [some 2]), (2, [none])]
        = [(0, [none]), (1, [some 2]), (2, [none])] := by
      norm_num [cleanTableWithFts, cleanCell]
    have halignP : alignPortfolio [(0, [none]), (1, [some 2]), (2, [none])]
        [(0, some 100), (1, some 110), (2, some 120)] = [(1, [some 2])] := by decide
    have halignB : alignBenchmark [(0, [none]), (1, [some 2]), (2, [none])]
        [(0, some 100), (1, some 110), (2, some 120)]
        = [(0, some 100), (1, some 110), (2, some 120)] := by decide
    have hnorm : normalizeTable [(1, [some 2])] = .ok [(1, [some 1])] := by
      norm_num [normalizeTable, normalizeCols, normalizeCol, firstValid, dates,
        List.range_succ, List.getD]
    have hweights : weightsOf ["A"] = [1] := by
      norm_num [weightsOf, List.replicate]
    have hagg : aggregate [(1, [some 1])] [1] = [(1, 1)] := by
      norm_num [aggregate, List.zipWith]
    have hbench : benchNormE [(0, some 100), (1, some 110), (2, some 120)]
        = .ok [(0, some 1), (1, some (11/10)), (2, some (6/5))] := by
      norm_num [benchNormE, Option.bind]
    have htr : totalReturn [1] = .ok 0 := by
      norm_num [totalReturn]
    have hap : annualizedParts [1] 730 = .ok ⟨1, 1/2⟩ := by
      norm_num [annualizedParts]
    have hit : ibovTotal [(0, some 1), (1, some (11/10)), (2, some (6/5))] [1]
        = .ok (some (1/10)) := by
      norm_num [ibovTotal, restrict, lookupDate, List.find?]
    have hiap : ibovAnnualParts [(0, some 1), (1, some (11/10)), (2, some (6/5))] [1] 730
        = .ok (some ⟨11/10, 1/2⟩) := by
      norm_num [ibovAnnualParts, restrict, lookupDate, List.find?]
    simp only [pipelineCore, hclean, halignP, halignB, hnorm, hweights, hagg, hbench,
      htr, hap, hit, hiap, List.map_cons, List.map_nil]

/-- Claim C6 (amended): on an empty date intersection the alignment step does
not fail — it silently produces empty portfolio and benchmark series — and the
run then aborts inside the benchmark normalization (`iloc[0]` on an empty
series raises an `IndexError`) surfaced by the generic exception handler;
there is no `InsufficientDataError` anywhere in the code. -/
theorem align_empty_amended (tbl : Table) (bm : PriceSeries)
    (hdisj : ∀ d ∈ dates tbl, d ∉ dates bm) :
    alignPortfolio tbl bm = []
    ∧ alignBenchmark tbl bm = []
    ∧ (∀ (tickers : List String) (fts : List (Option ℕ)) (d : ℤ),
        pipelineCore tickers fts tbl bm d = .errorShown .indexError) := by
  obtain ⟨h1, h2⟩ := align_disjoint_nil tbl bm hdisj
  refine ⟨h1, h2, fun tickers fts d => ?_⟩
  have hdisj' : ∀ e ∈ dates (cleanTableWithFts fts tbl), e ∉ dates bm := by
    rw [dates_cleanTableWithFts]
    exact hdisj
  obtain ⟨h3, h4⟩ := align_disjoint_nil (cleanTableWithFts fts tbl) bm hdisj'
  simp [pipelineCore, h3, h4, normalizeTable, aggregate, benchNormE]

/-- Witness for the amended C6 on a one-row table at date 0 and a benchmark at
date 5. -/
theorem align_empty_amended_witness :
    (∀ d ∈ dates [(0, [some 1])], d ∉ dates [(5, some 2)]) ∧
    (alignPortfolio [(0, [some 1])] [(5, some 2)] = []
    ∧ alignBenchmark [(0, [some 1])] [(5, some 2)] = []
    ∧ (∀ (tickers : List String) (fts : List (Option ℕ)) (d : ℤ),
        pipelineCore tickers fts [(0, [some 1])] [(5, some 2)] d
          = .errorShown .indexError)) :=
  ⟨by decide, align_empty_amended [(0, [some 1])] [(5, some 2)] (by decide)⟩

/-- Counterexample for C6 as stated: with portfolio dates {0} and benchmark
dates {5} the intersection is empty, yet alignment succeeds with empty
outputs, and the run's eventual failure is an `IndexError` from the benchmark
normalization, not an `InsufficientDataError`. -/
theorem align_empty_cex :
    alignPortfolio [(0, [some 1])] [(5, some 2)] = []
    ∧ alignBenchmark [(0, [some 1])] [(5, some 2)] = []
    ∧ pipelineCore ["A"] [none] [(0, [some 1])] [(5, some 2)] 730
        = .errorShown .indexError
    ∧ (RunOutcome.errorShown .indexError ≠ RunOutcome.errorShown .insufficientData) := by
  refine ⟨by decide, by decide, ?_, by simp⟩
  norm_num [pipelineCore, cleanTableWithFts, cleanCell, alignPortfolio, alignBenchmark,
    dates, normalizeTable, firstValid, normalizeCol, weightsOf, aggregate, benchNormE,
    totalReturn, annualizedParts, ibovTotal, ibovAnnualParts, restrict, lookupDate,
    List.find?, List.filter, List.zipWith, List.getD]

/-- Claim C7 (amended): with an empty ticker set the backtest handler does not
run at all — the guard `if st.button(...) and tickers:` short-circuits, only a
warning is shown, no fetch result is consumed and no error of any kind is
raised; the outcome is independent of whatever the fetchers would return. -/
theorem emptyTickers_not_run (fp1 fp2 : Table) (fb1 fb2 : PriceSeries)
    (i1 i2 : String → Except Unit (Option ℕ)) (d1 d2 : ℤ) (c : Cache) :
    runBacktest [] fp1 fb1 i1 d1 c = (.notRun, c)
    ∧ runBacktest [] fp1 fb1 i1 d1 c = runBacktest [] fp2 fb2 i2 d2 c :=
  ⟨rfl, rfl⟩

/-- Counterexample for C7 as stated: with no tickers the interaction ends in
the `notRun` outcome, which is not a failure with an `InsufficientDataError`
(no error is raised at all). -/
theorem emptyTickers_cex :
    runBacktest [] [] [] exInfoAB 0 [] = (.notRun, [])
    ∧ (RunOutcome.notRun ≠ RunOutcome.errorShown .insufficientData) :=
  ⟨rfl, by decide⟩

/-- Claim C8 (amended): with a non-empty portfolio series and a same-day
requested range (`elapsedCalendarDays = 0`), the annualized-return statistic
raises a `ZeroDivisionError` (`1 / (0 / 365)` in line 160), which the generic
handler surfaces; the code has no `InvalidRangeError`. -/
theorem sameDay_zero_division (x : ℚ) (xs : List ℚ) :
    annualizedParts (x :: xs) 0 = .error .zeroDivisionError := by
  simp [annualizedParts]

/-- Counterexample for C8 as stated: on the series `[1, 11/10]` with 0 elapsed
days the statistic fails with a `ZeroDivisionError`, which is not an
`InvalidRangeError`. -/
theorem sameDay_cex :
    annualizedParts [1, 11/10] 0 = .error .zeroDivisionError
    ∧ ((Except.error RunError.zeroDivisionError : Except RunError PowExpr)
        ≠ (Except.error RunError.invalidRange : Except RunError PowExpr)) :=
  ⟨rfl, by simp⟩

/-- A hit in a consistent memo returns exactly what the provider lookup would
compute. -/
theorem cacheFind_consistent (info : String → Except Unit (Option ℕ)) :
    ∀ (c : Cache), Consistent info c → ∀ (s : String) (v : Option ℕ),
      cacheFind c s = some v → v = getFirstTradeDate (info s) := by
  intro c
  induction c with
  | nil => intro _ s v h; cases h
  | cons p rest ih =>
    intro hc s v h
    obtain ⟨k, w⟩ := p
    simp only [cacheFind] at h
    by_cases hk : k = s
    · rw [if_pos hk] at h
      injection h with h'
      subst h'
      have hw := hc (k, w) (List.mem_cons_self _ _)
      rw [← hk]
      exact hw
    · rw [if_neg hk] at h
      exact ih (fun q hq => hc q (List.mem_cons_of_mem _ hq)) s v h

/-- Resolving first-trade dates through a consistent memo yields the same
values as the memo-free lookups and leaves the memo consistent. -/
theorem resolveFts_consistent (info : String → Except Unit (Option ℕ)) :
    ∀ (syms : List String) (c : Cache), Consistent info c →
      (resolveFts info syms c).1 = syms.map (fun s => getFirstTradeDate (info s))
      ∧ Consistent info (resolveFts info syms c).2 := by
  intro syms
  induction syms with
  | nil => intro c hc; exact ⟨rfl, hc⟩
  | cons s rest ih =>
    intro c hc
    have hstep : (getFirstTradeDateCached info c s).1 = getFirstTradeDate (info s)
        ∧ Consistent info (getFirstTradeDateCached info c s).2 := by
      rcases hfind : cacheFind c s with _ | v
      · simp only [getFirstTradeDateCached, hfind]
        refine ⟨trivial, fun p hp => ?_⟩
        rcases List.mem_append.1 hp with h1 | h1
        · exact hc p h1
        · simp only [List.mem_singleton] at h1
          subst h1
          rfl
      · simp only [getFirstTradeDateCached, hfind]
        exact ⟨cacheFind_consistent info c hc s v hfind, hc⟩
    obtain ⟨h1, h2⟩ := hstep
    obtain ⟨h3, h4⟩ := ih (getFirstTradeDateCached info c s).2 h2
    refine ⟨?_, h4⟩
    simp only [resolveFts, List.map_cons]
    rw [h1, h3]

/-- Claim C9: one backtest interaction is a pure function of its inputs — with
the `st.cache_data` memo consistent with the provider (in particular when it
starts empty), running the full pipeline (filter, align, normalize, aggregate,
stats) a second time on identical inputs, including the memo state the first
run left behind, produces the identical outcome. -/
theorem pipeline_idempotent (t : List String) (fp : Table) (fb : PriceSeries)
    (info : String → Except Unit (Option ℕ)) (d : ℤ) (c0 : Cache)
    (hc : Consistent info c0) :
    (runBacktest t fp fb info d ((runBacktest t fp fb info d c0).2)).1
      = (runBacktest t fp fb info d c0).1 := by
  by_cases ht : t.isEmpty
  · simp [runBacktest, ht]
  · obtain ⟨h1, h2⟩ := resolveFts_consistent info t c0 hc
    obtain ⟨h3, _⟩ := resolveFts_consistent info t (resolveFts info t c0).2 h2
    simp only [runBacktest, if_neg ht]
    rw [h3, h1]

/-- Witness for C9 on a one-ticker run starting from the empty memo. -/
theorem pipeline_idempotent_witness :
    Consistent exInfoAB [] ∧
    (runBacktest ["A"] [(6, [some 1]), (7, [some 2])] [(6, some 10), (7, some 11)]
        exInfoAB 365
        ((runBacktest ["A"] [(6, [some 1]), (7, [some 2])] [(6, some 10), (7, some 11)]
          exInfoAB 365 []).2)).1
      = (runBacktest ["A"] [(6, [some 1]), (7, [some 2])] [(6, some 10), (7, some 11)]
          exInfoAB 365 []).1 :=
  ⟨by decide,
    pipeline_idempotent ["A"] [(6, [some 1]), (7, [some 2])] [(6, some 10), (7, some 11)]
      exInfoAB 365 [] (by decide)⟩

end Backtest
